import Mathlib

/-!
Shallow embedding of the public room list handler
(`synapse/handlers/room_list.py`): room ranking by descending joined-member
count with room-id tie break, offset-based bidirectional pagination with
msgpack+base64 cursor tokens, and per-room enrichment with join-rule
re-validation.

Conventions of the embedding:
* The external store and state resolver are modelled as total functions
  packaged in `Store`; the handler is a pure function of the store.
* Python truthiness tests (`if limit:`, `if aliases:`, `if join_rule and ...`,
  `if new_limit:`, `if next_batch and next_batch != "END"`) are translated
  into the corresponding emptiness / zero / empty-string tests.
* The msgpack and unpadded-base64 libraries used by `to_token` / `from_token`
  are not part of the repository; they are modelled here at the wire-format
  level (msgpack fixmap with one-character string tags, unsigned-integer and
  boolean values, standard-alphabet base64 without padding).  The decoder
  accepts the canonical encodings (plus the redundant uint8/16/32/64 and str8
  forms); exotic redundant encodings and negative field values are outside
  the modelled token space.
* Python `list.sort` / `sorted` are stable; they are modelled by
  `List.insertionSort`, which is also stable.  The dict `rooms_to_order_value`
  keyed by room id is modelled by `List.dedup` of the candidate ids followed
  by the same key computation; the subsequent sort is by a key injective in
  the room id, so the dict iteration order (which depends on the unordered
  completion of concurrent workers) cannot affect the result.
* The unordered completion of the enrichment fan-out (`concurrently_execute`
  appending to `chunk`) is modelled by an explicit scheduling parameter
  `sched` that rearranges the page before enrichment; theorems quantify
  over it.
-/

/-! ### Data model -/

abbrev RoomId := String
abbrev EventId := String
abbrev UserId := String

/-- A state event: type, state key and string-valued content dictionary. -/
structure Event where
  type : String
  state_key : String
  content : List (String × String)
deriving DecidableEq, Repr

/-- The external collaborators (store and state resolver) as total functions:
`publicRoomIds` is `get_public_room_ids`, `maxStreamOrdering` is
`get_room_max_stream_ordering`, `forwardExtremities` is
`get_forward_extremeties_for_room`, `joinedUsers` is
`get_current_user_in_room` (a set of users, given as a list),
`currentStateIds` is `get_current_state_ids` (a dict as an association list),
`events` is `get_events` on a single id (`none` when the store lacks it), and
`aliasesFor` is `get_aliases_for_room`. -/
structure Store where
  publicRoomIds : List RoomId
  maxStreamOrdering : Nat
  forwardExtremities : RoomId → Nat → List EventId
  joinedUsers : RoomId → List EventId → List UserId
  currentStateIds : RoomId → List ((String × String) × EventId)
  events : EventId → Option Event
  aliasesFor : RoomId → List String

/-- The per-room entry of the response `chunk`, as assembled by
`handle_room`: mandatory `room_id`, `num_joined_members`, `world_readable`,
`guest_can_join`; the optional keys are present exactly when the source sets
them. -/
structure RoomSummary where
  room_id : RoomId
  num_joined_members : Nat
  aliases : Option (List String)
  name : Option String
  topic : Option String
  canonical_alias : Option String
  world_readable : Bool
  guest_can_join : Bool
  avatar_url : Option String
deriving DecidableEq, Repr

/-- The pagination cursor `RoomListNextBatch`: snapshot stream position,
offset from the head of the ranked sequence, and traversal direction. -/
structure RoomListNextBatch where
  stream_ordering : Nat
  current_limit : Nat
  direction_is_forward : Bool
deriving DecidableEq, Repr

/-- The response of `_get_public_room_list`: the `chunk` plus the optional
`next_batch` / `prev_batch` cursor tokens. -/
structure Page where
  chunk : List RoomSummary
  next_batch : Option String
  prev_batch : Option String
deriving DecidableEq, Repr

/-- Failures of the page computation.  The only failure the handler itself
produces is a cursor token that does not decode (the spec's
`MalformedCursor`); collaborator failures are outside the pure model, whose
store functions are total. -/
inductive RoomListError where
  | malformedCursor
deriving DecidableEq, Repr

/-! ### Cursor codec: msgpack map + unpadded base64 (model of the
`msgpack` / `unpaddedbase64` wire formats used by `to_token`/`from_token`) -/

/-- Standard base64 alphabet. -/
def b64chars : List Char :=
  "ABCDEFGHIJKLMNOPQRSTUVWXYZabcdefghijklmnopqrstuvwxyz0123456789+/".data

/-- Character of a six-bit group. -/
def sixToChar (n : Nat) : Char := b64chars.getD n 'A'

/-- Six-bit value of a base64 character, `none` when outside the alphabet. -/
def charToSix (c : Char) : Option Nat := List.findIdx? (fun x => x == c) b64chars

/-- Unpadded base64 encoding of a byte list (bytes as `Nat < 256`). -/
def b64encodeBytes : List Nat → List Char
  | [] => []
  | [a] => [sixToChar (a / 4), sixToChar (a % 4 * 16)]
  | [a, b] => [sixToChar (a / 4), sixToChar (a % 4 * 16 + b / 16), sixToChar (b % 16 * 4)]
  | a :: b :: c :: rest =>
    sixToChar (a / 4) :: sixToChar (a % 4 * 16 + b / 16) :: sixToChar (b % 16 * 4 + c / 64)
      :: sixToChar (c % 64) :: b64encodeBytes rest

/-- Unpadded base64 decoding; fails on a character outside the alphabet or a
length congruent to 1 mod 4 (the padding the decoder would restore is
invalid there). -/
def b64decodeChars : List Char → Option (List Nat)
  | [] => some []
  | [c1, c2] =>
    match charToSix c1, charToSix c2 with
    | some s1, some s2 => some [s1 * 4 + s2 / 16]
    | _, _ => none
  | [c1, c2, c3] =>
    match charToSix c1, charToSix c2, charToSix c3 with
    | some s1, some s2, some s3 => some [s1 * 4 + s2 / 16, s2 % 16 * 16 + s3 / 4]
    | _, _, _ => none
  | c1 :: c2 :: c3 :: c4 :: rest =>
    match charToSix c1, charToSix c2, charToSix c3, charToSix c4, b64decodeChars rest with
    | some s1, some s2, some s3, some s4, some tl =>
      some ((s1 * 4 + s2 / 16) :: (s2 % 16 * 16 + s3 / 4) :: (s3 % 4 * 64 + s4) :: tl)
    | _, _, _, _, _ => none
  | [_] => none

/-- Msgpack encoding of an unsigned integer (positive fixint, uint8, uint16,
uint32, uint64), exactly the minimal encoding msgpack emits. -/
def packUint (n : Nat) : List Nat :=
  if n < 128 then [n]
  else if n < 256 then [0xcc, n]
  else if n < 65536 then [0xcd, n / 256, n % 256]
  else if n < 4294967296 then
    [0xce, n / 16777216, n / 65536 % 256, n / 256 % 256, n % 256]
  else
    [0xcf, n / 72057594037927936, n / 281474976710656 % 256, n / 1099511627776 % 256,
      n / 4294967296 % 256, n / 16777216 % 256, n / 65536 % 256, n / 256 % 256, n % 256]

/-- Msgpack decoding of an unsigned integer; accepts the fixint form and the
uint8/16/32/64 forms (msgpack accepts non-minimal encodings). -/
def parseUint : List Nat → Option (Nat × List Nat)
  | [] => none
  | b :: rest =>
    if b < 128 then some (b, rest)
    else if b = 0xcc then
      match rest with
      | x :: r => some (x, r)
      | [] => none
    else if b = 0xcd then
      match rest with
      | x1 :: x2 :: r => some (x1 * 256 + x2, r)
      | _ => none
    else if b = 0xce then
      match rest with
      | x1 :: x2 :: x3 :: x4 :: r => some (((x1 * 256 + x2) * 256 + x3) * 256 + x4, r)
      | _ => none
    else if b = 0xcf then
      match rest with
      | x1 :: x2 :: x3 :: x4 :: x5 :: x6 :: x7 :: x8 :: r =>
        let hi := ((x1 * 256 + x2) * 256 + x3) * 256 + x4
        let lo := ((x5 * 256 + x6) * 256 + x7) * 256 + x8
        some (hi * 4294967296 + lo, r)
      | _ => none
    else none

/-- Msgpack decoding of a boolean. -/
def parseBool : List Nat → Option (Bool × List Nat)
  | 0xc2 :: rest => some (false, rest)
  | 0xc3 :: rest => some (true, rest)
  | _ => none

/-- Msgpack decoding of a one-character string key (fixstr or str8). -/
def parseShortKey : List Nat → Option (Nat × List Nat)
  | 0xa1 :: k :: rest => some (k, rest)
  | 0xd9 :: 1 :: k :: rest => some (k, rest)
  | _ => none

/-- Msgpack decoding of a map header (fixmap, map16, map32), yielding the
number of key-value pairs. -/
def parseMapHeader : List Nat → Option (Nat × List Nat)
  | [] => none
  | b :: rest =>
    if 0x80 ≤ b ∧ b ≤ 0x8f then some (b - 0x80, rest)
    else if b = 0xde then
      match rest with
      | x1 :: x2 :: r => some (x1 * 256 + x2, r)
      | _ => none
    else if b = 0xdf then
      match rest with
      | x1 :: x2 :: x3 :: x4 :: r => some (((x1 * 256 + x2) * 256 + x3) * 256 + x4, r)
      | _ => none
    else none

/-- Partially decoded cursor fields; mirrors the dict built before the
`RoomListNextBatch` constructor is applied. -/
structure PartialBatch where
  s : Option Nat
  n : Option Nat
  d : Option Bool
deriving DecidableEq, Repr

/-- Decode `count` key-value pairs.  Keys must be among the three tags
`s`/`n`/`d` of `KEY_DICT` (an unknown key is the `REVERSE_KEY_DICT` lookup
failure); a repeated key overwrites, as in the dict the source builds. -/
def parsePairs : Nat → PartialBatch → List Nat → Option (PartialBatch × List Nat)
  | 0, acc, bs => some (acc, bs)
  | count + 1, acc, bs =>
    match parseShortKey bs with
    | none => none
    | some (key, bs1) =>
      if key = 0x73 then
        match parseUint bs1 with
        | some (v, bs2) => parsePairs count { acc with s := some v } bs2
        | none => none
      else if key = 0x6e then
        match parseUint bs1 with
        | some (v, bs2) => parsePairs count { acc with n := some v } bs2
        | none => none
      else if key = 0x64 then
        match parseBool bs1 with
        | some (v, bs2) => parsePairs count { acc with d := some v } bs2
        | none => none
      else none

/-- Msgpack bytes of a cursor, as `to_token` produces them: a 3-entry fixmap
with one-character tags `s`, `n`, `d` (per `KEY_DICT`). -/
def batchBytes (b : RoomListNextBatch) : List Nat :=
  0x83 :: 0xa1 :: 0x73 :: (packUint b.stream_ordering
    ++ 0xa1 :: 0x6e :: (packUint b.current_limit
    ++ [0xa1, 0x64, if b.direction_is_forward then 0xc3 else 0xc2]))

/-- Decode a msgpack byte list into a cursor: a map whose keys are the three
tags, all three fields present, no trailing bytes (msgpack raises on extra
data, the constructor raises on a missing field). -/
def parseBatchBytes (bs : List Nat) : Option RoomListNextBatch :=
  match parseMapHeader bs with
  | none => none
  | some (count, bs1) =>
    match parsePairs count ⟨none, none, none⟩ bs1 with
    | none => none
    | some (acc, bs2) =>
      if bs2 = [] then
        match acc.s, acc.n, acc.d with
        | some s, some n, some d => some ⟨s, n, d⟩
        | _, _, _ => none
      else none

/-- Source `RoomListNextBatch.to_token`: msgpack-encode the tagged fields,
then unpadded base64. -/
def to_token (b : RoomListNextBatch) : String :=
  String.mk (b64encodeBytes (batchBytes b))

/-- Source `RoomListNextBatch.from_token`: base64-decode, msgpack-decode,
rebuild the cursor; `none` models the exception a malformed token raises. -/
def from_token (t : String) : Option RoomListNextBatch :=
  match b64decodeChars t.data with
  | some bs => parseBatchBytes bs
  | none => none

/-- Source `copy_and_replace(direction_is_forward=dir)`. -/
def copy_and_replace (b : RoomListNextBatch) (dir : Bool) : RoomListNextBatch :=
  { b with direction_is_forward := dir }

/-- A cursor whose integer fields msgpack can represent (msgpack raises on
integers of 2^64 or more). -/
def validBatch (b : RoomListNextBatch) : Prop :=
  b.stream_ordering < 18446744073709551616 ∧ b.current_limit < 18446744073709551616

instance (b : RoomListNextBatch) : Decidable (validBatch b) := by
  unfold validBatch; infer_instance

/-! ### Ranking -/

/-- Lexicographic order on the `(-num_joined, room_id)` sort keys, as Python
compares the tuples; the room id is compared as its character sequence,
which is Python's code-point lexicographic string comparison. -/
def lexLe (x y : Int × List Char) : Prop := x.1 < y.1 ∨ (x.1 = y.1 ∧ x.2 ≤ y.2)

/-- Strict version of `lexLe`. -/
def lexLt (x y : Int × List Char) : Prop := x.1 < y.1 ∨ (x.1 = y.1 ∧ x.2 < y.2)

instance (x y : Int × List Char) : Decidable (lexLe x y) := by
  unfold lexLe; infer_instance

instance (x y : Int × List Char) : Decidable (lexLt x y) := by
  unfold lexLt; infer_instance

/-- Number of joined users of a room at a stream position: the length of the
set `get_current_user_in_room` returns for the room's forward extremities
(the value stored in `rooms_to_num_joined`). -/
def numJoined (st : Store) (tok : Nat) (r : RoomId) : Nat :=
  (st.joinedUsers r (st.forwardExtremities r tok)).length

/-- Source `get_order_for_room`: skip the room when it has no forward
extremities at the snapshot or no joined users; otherwise its entry in
`rooms_to_order_value` carries the joined count (the key `(-n, room_id)` is
recomputed by `rankKey`). -/
def get_order_for_room (st : Store) (tok : Nat) (r : RoomId) : Option Nat :=
  if st.forwardExtremities r tok = [] then none
  else if numJoined st tok r = 0 then none
  else some (numJoined st tok r)

/-- Sort key of a ranked entry: `(-num_joined_users, room_id)`. -/
def rankKey (e : RoomId × Nat) : Int × List Char := (-(e.2 : Int), e.1.data)

/-- Ordering of ranked entries, `sorted(..., key=lambda e: e[1])`. -/
def rankLe (a b : RoomId × Nat) : Prop := lexLe (rankKey a) (rankKey b)

instance (a b : RoomId × Nat) : Decidable (rankLe a b) := by
  unfold rankLe; infer_instance

instance : IsTrans (Int × List Char) lexLe :=
  ⟨by
    intro a b c hab hbc
    rcases hab with h1 | ⟨e1, h1⟩ <;> rcases hbc with h2 | ⟨e2, h2⟩
    · exact Or.inl (h1.trans h2)
    · exact Or.inl (e2 ▸ h1)
    · exact Or.inl (e1 ▸ h2)
    · exact Or.inr ⟨e1.trans e2, h1.trans h2⟩⟩

instance : IsTotal (Int × List Char) lexLe :=
  ⟨by
    intro a b
    rcases lt_trichotomy a.1 b.1 with h | h | h
    · exact Or.inl (Or.inl h)
    · rcases le_total a.2 b.2 with h2 | h2
      · exact Or.inl (Or.inr ⟨h, h2⟩)
      · exact Or.inr (Or.inr ⟨h.symm, h2⟩)
    · exact Or.inr (Or.inl h)⟩

instance : IsTrans (RoomId × Nat) rankLe :=
  ⟨fun _ _ _ hab hbc => Trans.trans (r := lexLe) hab hbc⟩

instance : IsTotal (RoomId × Nat) rankLe :=
  ⟨fun a b => IsTotal.total (r := lexLe) (rankKey a) (rankKey b)⟩

/-- The ranked entries: the dict `rooms_to_order_value` (one entry per
candidate room that `get_order_for_room` kept, keyed by room id) sorted by
the `(-n, room_id)` key.  The sort key is injective in the room id, so the
arbitrary dict iteration order is irrelevant; `dedup` models the dict
collapsing duplicate candidate ids. -/
def rankedEntries (st : Store) (tok : Nat) : List (RoomId × Nat) :=
  List.insertionSort rankLe
    ((st.publicRoomIds.dedup).filterMap fun r =>
      (get_order_for_room st tok r).map fun n => (r, n))

/-- Source `sorted_rooms` before slicing: the ranked room ids. -/
def sortedRoomsAll (st : Store) (tok : Nat) : List RoomId :=
  (rankedEntries st tok).map Prod.fst

/-! ### Page selection -/

/-- Snapshot position: from the cursor when one was supplied, else the
current server-wide maximum stream ordering. -/
def streamTokenOf (st : Store) (nb : Option RoomListNextBatch) : Nat :=
  match nb with
  | some b => b.stream_ordering
  | none => st.maxStreamOrdering

/-- Offset carried by the cursor (0 when there is none). -/
def offsetOf (nb : Option RoomListNextBatch) : Nat :=
  match nb with
  | some b => b.current_limit
  | none => 0

/-- Direction of the traversal: the source tests
`not next_batch or next_batch.direction_is_forward`. -/
def isForwardOf (nb : Option RoomListNextBatch) : Bool :=
  match nb with
  | none => true
  | some b => b.direction_is_forward

/-- Direction slicing of the ranked sequence: forward drops the first
`current_limit` entries; backward takes the first `current_limit` entries
and reverses them. -/
def slicedRooms (all : List RoomId) (nb : Option RoomListNextBatch) : List RoomId :=
  match nb with
  | none => all
  | some b =>
    if b.direction_is_forward then all.drop b.current_limit
    else (all.take b.current_limit).reverse

/-- Source `new_limit` computation: only when a truthy `limit` was given and
entries remain past the truncation point; forward adds the cursor offset,
backward subtracts the page size from it with a floor at 0 (`max(0, ...)` is
the truncated `Nat` subtraction). -/
def newLimit (sliced : List RoomId) (limit : Option Nat)
    (nb : Option RoomListNextBatch) : Option Nat :=
  match limit with
  | none => none
  | some l =>
    if l = 0 then none
    else if sliced.drop l = [] then none
    else some (match nb with
      | none => l
      | some b =>
        if b.direction_is_forward then l + b.current_limit
        else b.current_limit - l)

/-- Truncation of the sliced sequence to the page size (`sorted_rooms[:limit]`
inside `if limit:`). -/
def selectedRooms (sliced : List RoomId) (limit : Option Nat) : List RoomId :=
  match limit with
  | none => sliced
  | some l => if l = 0 then sliced else sliced.take l

/-! ### Enrichment -/

/-- State-event types relevant to directory display. -/
def relevantTypes : List String :=
  ["m.room.join_rules", "m.room.name", "m.room.topic", "m.room.canonical_alias",
    "m.room.history_visibility", "m.room.guest_access", "m.room.avatar"]

/-- Events loaded for a room: current state ids filtered to the relevant
types, resolved through the store (ids the store lacks are dropped, as
`get_events` returns only found events). -/
def loadStateEvents (st : Store) (r : RoomId) : List Event :=
  ((st.currentStateIds r).filter fun kv => relevantTypes.contains kv.1.1).filterMap
    fun kv => st.events kv.2

/-- Lookup in the rebuilt `current_state` dict keyed by
`(ev.type, ev.state_key)`; a later event overwrites an earlier one, hence
the last match. -/
def stateGet (evs : List Event) (ty sk : String) : Option Event :=
  (evs.filter fun e => e.type == ty && e.state_key == sk).getLast?

/-- Content lookup, `ev.content.get(key, None)`. -/
def contentGet (e : Event) (k : String) : Option String :=
  List.lookup k e.content

/-- Optional summary field: present only when the event exists and the
content value is truthy (present and non-empty). -/
def truthyContent (eOpt : Option Event) (k : String) : Option String :=
  match eOpt with
  | none => none
  | some e =>
    match contentGet e k with
    | none => none
    | some v => if v = "" then none else some v

/-- Source `handle_room`: skip a room with zero joined members, drop a room
whose join-rule value is truthy and not `public`, otherwise assemble the
summary (optional fields only when truthy, `world_readable` and
`guest_can_join` by equality with the distinguished values). -/
def handle_room (st : Store) (tok : Nat) (room_id : RoomId) : Option RoomSummary :=
  if numJoined st tok room_id = 0 then none
  else
    let evs := loadStateEvents st room_id
    let dropIt : Bool :=
      match stateGet evs "m.room.join_rules" "" with
      | some ev =>
        match contentGet ev "join_rule" with
        | some jr => jr != "" && jr != "public"
        | none => false
      | none => false
    if dropIt then none
    else
      let aliases := st.aliasesFor room_id
      some
        { room_id := room_id
          num_joined_members := numJoined st tok room_id
          aliases := if aliases = [] then none else some aliases
          name := truthyContent (stateGet evs "m.room.name" "") "name"
          topic := truthyContent (stateGet evs "m.room.topic" "") "topic"
          canonical_alias := truthyContent (stateGet evs "m.room.canonical_alias" "") "alias"
          world_readable :=
            ((stateGet evs "m.room.history_visibility" "").bind
              (fun e => contentGet e "history_visibility")) == some "world_readable"
          guest_can_join :=
            ((stateGet evs "m.room.guest_access" "").bind
              (fun e => contentGet e "guest_access")) == some "can_join"
          avatar_url := truthyContent (stateGet evs "m.room.avatar" "") "url" }

/-- Sort key of a chunk entry, `(-e["num_joined_members"], e["room_id"])`. -/
def chunkKey (s : RoomSummary) : Int × List Char :=
  (-(s.num_joined_members : Int), s.room_id.data)

/-- Ordering of chunk entries used by the final `chunk.sort`. -/
def chunkLe (a b : RoomSummary) : Prop := lexLe (chunkKey a) (chunkKey b)

/-- Strict ordering of chunk entries. -/
def chunkLt (a b : RoomSummary) : Prop := lexLt (chunkKey a) (chunkKey b)

instance (a b : RoomSummary) : Decidable (chunkLe a b) := by
  unfold chunkLe; infer_instance

instance (a b : RoomSummary) : Decidable (chunkLt a b) := by
  unfold chunkLt; infer_instance

instance : IsTrans RoomSummary chunkLe :=
  ⟨fun _ _ _ hab hbc => Trans.trans (r := lexLe) hab hbc⟩

instance : IsTotal RoomSummary chunkLe :=
  ⟨fun a b => IsTotal.total (r := lexLe) (chunkKey a) (chunkKey b)⟩

instance : IsAntisymm RoomSummary chunkLt :=
  ⟨by
    intro a b h1 h2
    exfalso
    rcases h1 with h1 | ⟨e1, h1⟩ <;> rcases h2 with h2 | ⟨e2, h2⟩
    · exact absurd (h1.trans h2) (lt_irrefl _)
    · exact absurd h1 (e2 ▸ lt_irrefl _)
    · exact absurd h2 (e1 ▸ lt_irrefl _)
    · exact absurd (h1.trans h2) (lt_irrefl _)⟩

/-- The chunk produced by enriching the given rooms in the order their
fan-out workers complete (rooms `handle_room` drops are omitted) and then
re-sorting by the chunk key. -/
def chunkOf (st : Store) (tok : Nat) (rooms : List RoomId) : List RoomSummary :=
  List.insertionSort chunkLe (rooms.filterMap (handle_room st tok))

/-! ### Aggregation -/

/-- Response assembly (source lines issuing `next_batch` / `prev_batch`):
in the forward case a truthy `new_limit` yields a forward cursor in
`next_batch`, and the input cursor (if any) reversed into `prev_batch`;
symmetrically in the backward case.  `if new_limit:` is the Python
truthiness test, hence the `≠ 0` condition. -/
def assembleResults (chunk : List RoomSummary) (tok : Nat) (nl : Option Nat)
    (nb : Option RoomListNextBatch) : Page :=
  if isForwardOf nb then
    { chunk := chunk
      next_batch :=
        match nl with
        | some m => if m ≠ 0 then some (to_token ⟨tok, m, true⟩) else none
        | none => none
      prev_batch :=
        match nb with
        | some b => some (to_token (copy_and_replace b false))
        | none => none }
  else
    { chunk := chunk
      prev_batch :=
        match nl with
        | some m => if m ≠ 0 then some (to_token ⟨tok, m, false⟩) else none
        | none => none
      next_batch :=
        match nb with
        | some b => some (to_token (copy_and_replace b true))
        | none => none }

/-- The page computed once the cursor (if any) is decoded: rank at the
snapshot position, slice by direction, truncate, enrich (in the fan-out
completion order given by `sched`), assemble. -/
def computePage (st : Store) (limit : Option Nat) (nb : Option RoomListNextBatch)
    (sched : List RoomId → List RoomId) : Page :=
  let tok := streamTokenOf st nb
  let all := sortedRoomsAll st tok
  let sliced := slicedRooms all nb
  assembleResults (chunkOf st tok (sched (selectedRooms sliced limit))) tok
    (newLimit sliced limit nb) nb

/-- Cursor intake of `_get_public_room_list`: a missing, empty or sentinel
`END` token means no cursor (decoding is not attempted); otherwise the token
must decode, a failure surfacing as `malformedCursor`. -/
def decodeNextBatch : Option String → Except RoomListError (Option RoomListNextBatch)
  | none => Except.ok none
  | some t =>
    if t = "" ∨ t = "END" then Except.ok none
    else
      match from_token t with
      | some b => Except.ok (some b)
      | none => Except.error RoomListError.malformedCursor

/-- Source `_get_public_room_list(limit, next_batch)`, with the fan-out
completion order of the enrichment made explicit as `sched`. -/
def get_public_room_list (st : Store) (limit : Option Nat) (tokenOpt : Option String)
    (sched : List RoomId → List RoomId) : Except RoomListError Page :=
  match decodeNextBatch tokenOpt with
  | Except.error e => Except.error e
  | Except.ok nb => Except.ok (computePage st limit nb sched)

/-! ### Concrete stores used to evaluate the theorems on explicit inputs -/

/-- A store with three rankable rooms (`!a` with two joined members, `!b` and
`!c` with one each), one room with no joined members (`!d`) and one with no
forward extremities (`!e`). -/
def wStore : Store :=
  { publicRoomIds := ["!c", "!a", "!b", "!d", "!e"]
    maxStreamOrdering := 7
    forwardExtremities := fun r _ => if r = "!e" then [] else ["$x"]
    joinedUsers := fun r _ =>
      if r = "!d" then [] else if r = "!a" then ["@u", "@v"] else ["@u"]
    currentStateIds := fun _ => []
    events := fun _ => none
    aliasesFor := fun _ => [] }

/-- The join-rules event of room `!b` of `c7Store`. -/
def c7Event : Event := ⟨"m.room.join_rules", "", [("join_rule", "invite")]⟩

/-- A store whose room `!b` has transitioned to join rule `invite`. -/
def c7Store : Store :=
  { publicRoomIds := ["!a", "!b"]
    maxStreamOrdering := 0
    forwardExtremities := fun _ _ => ["$x"]
    joinedUsers := fun _ _ => ["@u"]
    currentStateIds := fun r => if r = "!b" then [(("m.room.join_rules", ""), "$jr")] else []
    events := fun i => if i = "$jr" then some c7Event else none
    aliasesFor := fun _ => [] }

/-- A store whose single room carries a join-rules event with the empty
string as its rule value. -/
def c7cexStore : Store :=
  { publicRoomIds := ["!a"]
    maxStreamOrdering := 0
    forwardExtremities := fun _ _ => ["$x"]
    joinedUsers := fun _ _ => ["@u"]
    currentStateIds := fun _ => [(("m.room.join_rules", ""), "$jr")]
    events := fun i => if i = "$jr" then some ⟨"m.room.join_rules", "", [("join_rule", "")]⟩ else none
    aliasesFor := fun _ => [] }

/-! ### Codec lemmas -/

/-- Round trip of the base64 character table on the 64 six-bit values. -/
theorem charToSix_sixToChar_fin : ∀ n : Fin 64, charToSix (sixToChar n.val) = some n.val := by
  decide

/-- Round trip of the base64 character table. -/
theorem charToSix_sixToChar {n : Nat} (h : n < 64) : charToSix (sixToChar n) = some n :=
  charToSix_sixToChar_fin ⟨n, h⟩

/-- Base64 round trip on byte lists. -/
theorem b64_roundtrip : ∀ l : List Nat, (∀ x ∈ l, x < 256) →
    b64decodeChars (b64encodeBytes l) = some l
  | [], _ => rfl
  | [a], h => by
    have ha : a < 256 := h a (by simp)
    simp only [b64encodeBytes, b64decodeChars]
    rw [charToSix_sixToChar (by omega), charToSix_sixToChar (by omega)]
    simp only [Option.some.injEq, List.cons.injEq, and_true]
    omega
  | [a, b], h => by
    have ha : a < 256 := h a (by simp)
    have hb : b < 256 := h b (by simp)
    simp only [b64encodeBytes, b64decodeChars]
    rw [charToSix_sixToChar (by omega), charToSix_sixToChar (by omega),
      charToSix_sixToChar (by omega)]
    simp only [Option.some.injEq, List.cons.injEq, and_true]
    omega
  | a :: b :: c :: rest, h => by
    have ha : a < 256 := h a (by simp)
    have hb : b < 256 := h b (by simp)
    have hc : c < 256 := h c (by simp)
    have ih := b64_roundtrip rest (fun x hx => h x (by simp [hx]))
    simp only [b64encodeBytes, b64decodeChars]
    rw [charToSix_sixToChar (by omega), charToSix_sixToChar (by omega),
      charToSix_sixToChar (by omega), charToSix_sixToChar (by omega), ih]
    simp only [Option.some.injEq, List.cons.injEq, and_true]
    refine ⟨by omega, by omega, by omega⟩

/-- Every byte emitted for an integer below 2^64 is a byte. -/
theorem packUint_lt {n : Nat} (h : n < 18446744073709551616) :
    ∀ x ∈ packUint n, x < 256 := by
  intro x hx
  unfold packUint at hx
  split_ifs at hx <;>
    simp only [List.mem_cons, List.not_mem_nil, or_false] at hx <;>
    (try casesm* _ ∨ _) <;> subst_vars <;> omega

/-- Msgpack integer encoding is never empty. -/
theorem packUint_cons (n : Nat) : ∃ x t, packUint n = x :: t := by
  unfold packUint
  split_ifs <;> exact ⟨_, _, rfl⟩

/-- Round trip of the msgpack unsigned-integer encoding, with any trailing
bytes preserved. -/
theorem parseUint_packUint {n : Nat} (h : n < 18446744073709551616) (r : List Nat) :
    parseUint (packUint n ++ r) = some (n, r) := by
  unfold packUint
  split_ifs with h1 h2 h3 h4
  · simp [parseUint, h1]
  all_goals simp only [List.cons_append, List.nil_append]
  all_goals simp [parseUint]
  all_goals omega

/-- Map header of the three-entry fixmap. -/
theorem parseMapHeader_fix3 (rest : List Nat) : parseMapHeader (0x83 :: rest) = some (3, rest) := by
  simp [parseMapHeader]

/-- Round trip of the tagged three-field msgpack map. -/
theorem parseBatchBytes_batchBytes (b : RoomListNextBatch) (h : validBatch b) :
    parseBatchBytes (batchBytes b) = some b := by
  obtain ⟨hs, hn⟩ := h
  obtain ⟨s, n, d⟩ := b
  have k3 : parseBool [if d then 0xc3 else 0xc2] = some (d, []) := by cases d <;> rfl
  unfold parseBatchBytes batchBytes
  rw [parseMapHeader_fix3]
  simp only [parsePairs, parseShortKey, parseUint_packUint hs, parseUint_packUint hn, k3]
  rfl

/-- Every byte of the encoded cursor map is a byte. -/
theorem batchBytes_lt (b : RoomListNextBatch) (h : validBatch b) :
    ∀ x ∈ batchBytes b, x < 256 := by
  obtain ⟨hs, hn⟩ := h
  have h1 := packUint_lt hs
  have h2 := packUint_lt hn
  simp only [batchBytes]
  intro x hx
  rcases List.mem_cons.mp hx with rfl | hx
  · omega
  rcases List.mem_cons.mp hx with rfl | hx
  · omega
  rcases List.mem_cons.mp hx with rfl | hx
  · omega
  rcases List.mem_append.mp hx with hx | hx
  · exact h1 x hx
  rcases List.mem_cons.mp hx with rfl | hx
  · omega
  rcases List.mem_cons.mp hx with rfl | hx
  · omega
  rcases List.mem_append.mp hx with hx | hx
  · exact h2 x hx
  rcases List.mem_cons.mp hx with rfl | hx
  · omega
  rcases List.mem_cons.mp hx with rfl | hx
  · omega
  rcases List.mem_cons.mp hx with rfl | hx
  · split <;> omega
  · exact absurd hx (List.not_mem_nil x)

/-- Cursor codec round trip (the modelled `from_token` after `to_token`). -/
theorem from_token_to_token (b : RoomListNextBatch) (h : validBatch b) :
    from_token (to_token b) = some b := by
  show (match b64decodeChars (String.mk (b64encodeBytes (batchBytes b))).data with
    | some bs => parseBatchBytes bs
    | none => none) = some b
  rw [show (String.mk (b64encodeBytes (batchBytes b))).data = b64encodeBytes (batchBytes b)
    from rfl]
  rw [b64_roundtrip _ (batchBytes_lt b h)]
  exact parseBatchBytes_batchBytes b h

/-- The character list of an encoded token starts with the base64 letter of
the six-bit value 32 (the fixmap byte 0x83 contributes `0x83 / 4 = 32`),
which is the letter `g`. -/
theorem to_token_data (b : RoomListNextBatch) :
    ∃ t, (to_token b).data = sixToChar 32 :: t := by
  obtain ⟨x, tl, he⟩ := packUint_cons b.stream_ordering
  have hb : batchBytes b = 0x83 :: 0xa1 :: 0x73 :: x :: (tl
      ++ (0xa1 :: 0x6e :: (packUint b.current_limit
        ++ [0xa1, 0x64, if b.direction_is_forward then 0xc3 else 0xc2]))) := by
    simp [batchBytes, he]
  refine ⟨sixToChar 58 :: sixToChar 5 :: sixToChar 51 :: b64encodeBytes (x :: (tl
      ++ (0xa1 :: 0x6e :: (packUint b.current_limit
        ++ [0xa1, 0x64, if b.direction_is_forward then 0xc3 else 0xc2])))), ?_⟩
  rw [show (to_token b).data = b64encodeBytes (batchBytes b) from rfl, hb]
  rfl

/-- A token never coincides with the empty string or the sentinel `END`. -/
theorem to_token_ne_sentinel (b : RoomListNextBatch) :
    to_token b ≠ "" ∧ to_token b ≠ "END" := by
  obtain ⟨t, ht⟩ := to_token_data b
  constructor
  · intro he
    have hd := congrArg String.data he
    rw [ht] at hd
    exact absurd hd (by simp)
  · intro he
    have hd := congrArg String.data he
    rw [ht] at hd
    rw [show ("END" : String).data = ['E', 'N', 'D'] from rfl] at hd
    have hg : sixToChar 32 = 'g' := by decide
    rw [hg] at hd
    exact absurd (List.head_eq_of_cons_eq hd) (by decide)

/-- Evaluation of the aggregator on an encoded cursor: decoding succeeds and
the page is the one computed from the decoded cursor. -/
theorem run_with_batch (st : Store) (limit : Option Nat)
    (sched : List RoomId → List RoomId) (b : RoomListNextBatch) (h : validBatch b) :
    get_public_room_list st limit (some (to_token b)) sched
      = Except.ok (computePage st limit (some b) sched) := by
  obtain ⟨h1, h2⟩ := to_token_ne_sentinel b
  have hd : decodeNextBatch (some (to_token b)) = Except.ok (some b) := by
    simp only [decodeNextBatch]
    rw [if_neg (by simp [h1, h2]), from_token_to_token b h]
  show (match decodeNextBatch (some (to_token b)) with
    | Except.error e => Except.error e
    | Except.ok nb => Except.ok (computePage st limit nb sched)) = _
  rw [hd]

/-- C3: for every valid cursor (the triple of snapshot position, offset and
direction flag, with the integer fields in msgpack's representable range),
decoding the token produced by encoding the cursor yields the cursor again:
`from_token (to_token c) = some c`. -/
theorem roomlist_C3 (b : RoomListNextBatch) (h : validBatch b) :
    from_token (to_token b) = some b :=
  from_token_to_token b h

/-- Witness for C3 at a concrete cursor whose offset needs the uint64 form. -/
theorem roomlist_C3_witness :
    validBatch ⟨300, 123456789123, true⟩ ∧
      from_token (to_token ⟨300, 123456789123, true⟩) = some ⟨300, 123456789123, true⟩ :=
  ⟨by decide, roomlist_C3 ⟨300, 123456789123, true⟩ (by decide)⟩

/-- C8: a token that is neither absent, empty nor the sentinel and cannot be
parsed into the three required cursor fields makes the page computation fail
with the distinguished `malformedCursor` error. -/
theorem roomlist_C8 (t : String) (h1 : t ≠ "") (h2 : t ≠ "END")
    (hdec : from_token t = none) (st : Store) (limit : Option Nat)
    (sched : List RoomId → List RoomId) :
    get_public_room_list st limit (some t) sched
      = Except.error RoomListError.malformedCursor := by
  have hd : decodeNextBatch (some t) = Except.error RoomListError.malformedCursor := by
    simp only [decodeNextBatch]
    rw [if_neg (by simp [h1, h2]), hdec]
  show (match decodeNextBatch (some t) with
    | Except.error e => Except.error e
    | Except.ok nb => Except.ok (computePage st limit nb sched)) = _
  rw [hd]

/-- Witness for C8 on a token made of characters outside the base64
alphabet. -/
theorem roomlist_C8_witness :
    (("!!!" : String) ≠ "" ∧ ("!!!" : String) ≠ "END" ∧ from_token "!!!" = none) ∧
      get_public_room_list wStore (some 10) (some "!!!") id
        = Except.error RoomListError.malformedCursor :=
  ⟨⟨by decide, by decide, by decide⟩,
    roomlist_C8 "!!!" (by decide) (by decide) (by decide) wStore (some 10) id⟩

/-- C9: the sentinel token `END` short-circuits decoding and the request is
processed exactly as a first-page request carrying no cursor (the two runs
are equal as functions of the store, limit and scheduling, and the
cursor-less run starts the forward traversal at offset 0 because
`slicedRooms` leaves the ranked sequence whole). -/
theorem roomlist_C9 (st : Store) (limit : Option Nat)
    (sched : List RoomId → List RoomId) :
    get_public_room_list st limit (some "END") sched
      = get_public_room_list st limit none sched := by
  have hd : decodeNextBatch (some "END") = Except.ok none := by
    simp [decodeNextBatch]
  show (match decodeNextBatch (some "END") with
    | Except.error e => Except.error e
    | Except.ok nb => Except.ok (computePage st limit nb sched))
    = (match decodeNextBatch none with
    | Except.error e => Except.error e
    | Except.ok nb => Except.ok (computePage st limit nb sched))
  rw [hd]
  rfl

/-! ### Ranking and enrichment lemmas -/

/-- The id of the summary `handle_room` builds is the room it was built for. -/
theorem handle_room_id (st : Store) (tok : Nat) (r : RoomId) (s : RoomSummary)
    (h : handle_room st tok r = some s) : s.room_id = r := by
  simp only [handle_room] at h
  split_ifs at h
  all_goals (have hi := Option.some.inj h; subst hi; rfl)

/-- A summary `handle_room` yields always has a positive member count. -/
theorem handle_room_pos (st : Store) (tok : Nat) (r : RoomId) (s : RoomSummary)
    (h : handle_room st tok r = some s) : 0 < s.num_joined_members := by
  simp only [handle_room] at h
  split_ifs at h with h1 h2 h3
  all_goals (have hi := Option.some.inj h; subst hi; exact Nat.pos_of_ne_zero h1)

/-- Membership in an enriched list determines the generating room. -/
theorem mem_filterMap_handle (st : Store) (tok : Nat) (l : List RoomId) (s : RoomSummary)
    (h : s ∈ l.filterMap (handle_room st tok)) :
    s.room_id ∈ l ∧ handle_room st tok s.room_id = some s := by
  rcases List.mem_filterMap.mp h with ⟨r, hr, he⟩
  have hid := handle_room_id st tok r s he
  rw [hid]
  exact ⟨hr, he⟩

/-- Ids appearing among enriched summaries come from the input list. -/
theorem mem_ids_filterMap_handle (st : Store) (tok : Nat) (l : List RoomId) (x : String)
    (h : x ∈ (l.filterMap (handle_room st tok)).map (fun s => s.room_id)) : x ∈ l := by
  rcases List.mem_map.mp h with ⟨s, hs, he⟩
  exact he ▸ (mem_filterMap_handle st tok l s hs).1

/-- Enrichment of a duplicate-free room list yields summaries with
duplicate-free ids. -/
theorem nodup_ids_filterMap_handle (st : Store) (tok : Nat) (l : List RoomId)
    (h : l.Nodup) :
    ((l.filterMap (handle_room st tok)).map (fun s => s.room_id)).Nodup := by
  induction l with
  | nil => simp
  | cons a t ih =>
    rcases List.nodup_cons.mp h with ⟨ha, ht⟩
    rw [List.filterMap_cons]
    cases he : handle_room st tok a with
    | none => exact ih ht
    | some s =>
      rw [List.map_cons]
      refine List.nodup_cons.mpr ⟨?_, ih ht⟩
      intro hmem
      have hx := mem_ids_filterMap_handle st tok t _ hmem
      rw [handle_room_id st tok a s he] at hx
      exact ha hx

/-- The room ids of the ranked pairs form a sublist of the candidates. -/
theorem fst_filterMap_order_sublist (f : RoomId → Option Nat) (l : List RoomId) :
    ((l.filterMap fun r => (f r).map fun n => (r, n)).map Prod.fst).Sublist l := by
  induction l with
  | nil => simp
  | cons a t ih =>
    rw [List.filterMap_cons]
    cases hf : f a
    · exact ih.cons a
    · exact ih.cons₂ a

/-- The ranked room sequence has no duplicate ids. -/
theorem sortedRoomsAll_nodup (st : Store) (tok : Nat) : (sortedRoomsAll st tok).Nodup := by
  have hsub := fst_filterMap_order_sublist (get_order_for_room st tok) st.publicRoomIds.dedup
  have hn := hsub.nodup (List.nodup_dedup _)
  have hp : List.Perm ((rankedEntries st tok).map Prod.fst)
      ((st.publicRoomIds.dedup.filterMap fun r =>
        (get_order_for_room st tok r).map fun n => (r, n)).map Prod.fst) :=
    (List.perm_insertionSort _ _).map _
  exact hp.nodup_iff.mpr hn

/-- The chunk is always sorted by the chunk ordering. -/
theorem chunkOf_sorted (st : Store) (tok : Nat) (l : List RoomId) :
    List.Sorted chunkLe (chunkOf st tok l) :=
  List.sorted_insertionSort chunkLe _

/-- Characterwise equality of strings is string equality. -/
theorem strData_inj {s t : String} (h : s.data = t.data) : s = t := by
  cases s
  cases t
  cases h
  rfl

/-- A chunk ordered by `chunkLe` with duplicate-free ids is strictly
ordered. -/
theorem sorted_chunkLt {l : List RoomSummary} (hs : List.Sorted chunkLe l)
    (hn : (l.map (fun s => s.room_id)).Nodup) : List.Sorted chunkLt l := by
  have hne : l.Pairwise (fun a b : RoomSummary => ¬a.room_id = b.room_id) := by
    rw [List.Nodup, List.pairwise_map] at hn
    exact hn
  exact hs.imp₂ (fun a b hle hab => by
    rcases hle with h | ⟨he, h⟩
    · exact Or.inl h
    · exact Or.inr ⟨he, lt_of_le_of_ne h (fun hd => hab (strData_inj hd))⟩) hne

/-- Ids of a chunk are duplicate-free when the enriched rooms are. -/
theorem chunkOf_ids_nodup (st : Store) (tok : Nat) (l : List RoomId) (hn : l.Nodup) :
    ((chunkOf st tok l).map (fun s => s.room_id)).Nodup := by
  have hpm : List.Perm ((chunkOf st tok l).map (fun s => s.room_id))
      ((l.filterMap (handle_room st tok)).map (fun s => s.room_id)) :=
    (List.perm_insertionSort chunkLe _).map _
  exact hpm.nodup_iff.mpr (nodup_ids_filterMap_handle st tok l hn)

/-- Determinism of the chunk under rearrangement of the enriched rooms: the
final sort cancels any permutation, because the sort key is injective on a
duplicate-free page. -/
theorem chunkOf_perm_eq (st : Store) (tok : Nat) {l₁ l₂ : List RoomId}
    (hp : List.Perm l₁ l₂) (hn : l₁.Nodup) :
    chunkOf st tok l₁ = chunkOf st tok l₂ := by
  have hf : List.Perm (l₁.filterMap (handle_room st tok)) (l₂.filterMap (handle_room st tok)) :=
    hp.filterMap _
  have hps : List.Perm (chunkOf st tok l₁) (chunkOf st tok l₂) :=
    ((List.perm_insertionSort chunkLe _).trans hf).trans
      (List.perm_insertionSort chunkLe _).symm
  exact List.eq_of_perm_of_sorted hps
    (sorted_chunkLt (chunkOf_sorted st tok l₁) (chunkOf_ids_nodup st tok l₁ hn))
    (sorted_chunkLt (chunkOf_sorted st tok l₂) (chunkOf_ids_nodup st tok l₂ (hp.nodup_iff.mp hn)))

/-- Inversion of a successful run: the cursor decoded and the page is the
computed one. -/
theorem run_ok (st : Store) (limit : Option Nat) (tokenOpt : Option String)
    (sched : List RoomId → List RoomId) (page : Page)
    (h : get_public_room_list st limit tokenOpt sched = Except.ok page) :
    ∃ nb, decodeNextBatch tokenOpt = Except.ok nb
      ∧ page = computePage st limit nb sched := by
  unfold get_public_room_list at h
  cases hd : decodeNextBatch tokenOpt with
  | error e => rw [hd] at h; exact nomatch h
  | ok nb => rw [hd] at h; exact ⟨nb, rfl, (Except.ok.inj h).symm⟩

/-- The chunk field is the one passed to the response assembly. -/
theorem assembleResults_chunk (chunk : List RoomSummary) (tok : Nat) (nl : Option Nat)
    (nb : Option RoomListNextBatch) : (assembleResults chunk tok nl nb).chunk = chunk := by
  unfold assembleResults
  split <;> rfl

/-- The chunk of a computed page is the sorted enrichment of the scheduled
selection. -/
theorem computePage_chunk (st : Store) (limit : Option Nat)
    (nb : Option RoomListNextBatch) (sched : List RoomId → List RoomId) :
    (computePage st limit nb sched).chunk
      = chunkOf st (streamTokenOf st nb)
        (sched (selectedRooms
          (slicedRooms (sortedRoomsAll st (streamTokenOf st nb)) nb) limit)) := by
  unfold computePage
  exact assembleResults_chunk _ _ _ _

/-- C5: the final chunk of every successfully computed page is sorted
ascending by the composite key `(-joinedMemberCount, roomId)`, whatever the
traversal direction (the cursor inside `tokenOpt`) and whatever order the
enrichment workers complete in (`sched` is arbitrary). -/
theorem roomlist_C5 (st : Store) (limit : Option Nat) (tokOpt : Option String)
    (sched : List RoomId → List RoomId) (page : Page)
    (hok : get_public_room_list st limit tokOpt sched = Except.ok page) :
    List.Sorted chunkLe page.chunk := by
  obtain ⟨nb, _hd, rfl⟩ := run_ok st limit tokOpt sched page hok
  rw [computePage_chunk]
  exact chunkOf_sorted _ _ _

/-- Witness for C5 on the concrete store, with the enrichment completing in
reversed order. -/
theorem roomlist_C5_witness :
    List.Sorted chunkLe (computePage wStore (some 2) none List.reverse).chunk :=
  roomlist_C5 wStore (some 2) none List.reverse
    (computePage wStore (some 2) none List.reverse) rfl

/-- C4: a room whose joined-member count resolves to zero at the snapshot
position never appears in the ranked sequence, and every entry of any
successfully computed chunk has a positive member count. -/
theorem roomlist_C4 (st : Store) (limit : Option Nat) (tokOpt : Option String)
    (sched : List RoomId → List RoomId) (page : Page)
    (hok : get_public_room_list st limit tokOpt sched = Except.ok page) :
    (∀ s ∈ page.chunk, 0 < s.num_joined_members)
      ∧ ∀ tok r, r ∈ sortedRoomsAll st tok → 0 < numJoined st tok r := by
  obtain ⟨nb, _hd, rfl⟩ := run_ok st limit tokOpt sched page hok
  constructor
  · intro s hs
    rw [computePage_chunk] at hs
    unfold chunkOf at hs
    rw [List.mem_insertionSort] at hs
    obtain ⟨_, he⟩ := mem_filterMap_handle _ _ _ _ hs
    exact handle_room_pos _ _ _ _ he
  · intro tok r hr
    unfold sortedRoomsAll rankedEntries at hr
    rcases List.mem_map.mp hr with ⟨e, hmem, hfst⟩
    rw [List.mem_insertionSort] at hmem
    rcases List.mem_filterMap.mp hmem with ⟨r0, _hr0, he⟩
    cases ho : get_order_for_room st tok r0 with
    | none => rw [ho] at he; exact nomatch he
    | some m =>
      rw [ho] at he
      have he2 := Option.some.inj he
      unfold get_order_for_room at ho
      split_ifs at ho with hext hz
      have hm := Option.some.inj ho
      rw [← he2] at hfst
      have : r0 = r := hfst
      subst this
      exact Nat.pos_of_ne_zero hz

/-- Witness for C4 on the concrete store (room `!d` resolves to zero joined
members and appears in no chunk; the computed first page only contains
positive counts). -/
theorem roomlist_C4_witness :
    (∀ s ∈ (computePage wStore (some 2) none id).chunk, 0 < s.num_joined_members)
      ∧ ∀ tok r, r ∈ sortedRoomsAll wStore tok → 0 < numJoined wStore tok r :=
  roomlist_C4 wStore (some 2) none id (computePage wStore (some 2) none id) rfl

/-- C7 (amended): a room whose enrichment finds a join-rules event carrying a
join-rule value that is present, non-empty and different from `public` is
silently dropped: the page computation still succeeds and no entry of the
final chunk carries that room id.  (The source tests
`if join_rule and join_rule != JoinRules.PUBLIC`, so an empty-string rule
value is kept; the claim as stated, which drops for every value other than
`public`, fails on that input.) -/
theorem roomlist_C7 (st : Store) (r : RoomId) (ev : Event) (jr : String)
    (hev : stateGet (loadStateEvents st r) "m.room.join_rules" "" = some ev)
    (hjr : contentGet ev "join_rule" = some jr) (hne : jr ≠ "") (hnp : jr ≠ "public")
    (limit : Option Nat) (tokOpt : Option String) (sched : List RoomId → List RoomId)
    (page : Page)
    (hok : get_public_room_list st limit tokOpt sched = Except.ok page) :
    ∀ s ∈ page.chunk, s.room_id ≠ r := by
  obtain ⟨nb, _hd, rfl⟩ := run_ok st limit tokOpt sched page hok
  intro s hs hsr
  rw [computePage_chunk] at hs
  unfold chunkOf at hs
  rw [List.mem_insertionSort] at hs
  obtain ⟨_, he⟩ := mem_filterMap_handle _ _ _ _ hs
  rw [hsr] at he
  have hdrop : (match stateGet (loadStateEvents st r) "m.room.join_rules" "" with
      | some ev =>
        match contentGet ev "join_rule" with
        | some jr => jr != "" && jr != "public"
        | none => false
      | none => false) = true := by
    simp [hev, hjr, hne, hnp]
  have hnone : handle_room st (streamTokenOf st nb) r = none := by
    simp only [handle_room]
    split_ifs <;> rfl
  rw [hnone] at he
  exact nomatch he

/-- Witness for the amended C7: room `!b` of the concrete store carries join
rule `invite` and is absent from the computed chunk. -/
theorem roomlist_C7_witness :
    (stateGet (loadStateEvents c7Store "!b") "m.room.join_rules" "" = some c7Event
      ∧ contentGet c7Event "join_rule" = some "invite")
    ∧ ∀ s ∈ (computePage c7Store (some 10) none id).chunk, s.room_id ≠ "!b" :=
  ⟨⟨by decide, by decide⟩,
    roomlist_C7 c7Store "!b" c7Event "invite" (by decide) (by decide) (by decide)
      (by decide) (some 10) none id (computePage c7Store (some 10) none id) rfl⟩

/-- Counterexample to C7 as stated: in `c7cexStore` the single room carries a
join-rules event whose rule value is the empty string, which is not
`public`, yet the room appears in the final chunk (the source only drops a
room when the rule value is truthy). -/
theorem roomlist_C7_cex :
    stateGet (loadStateEvents c7cexStore "!a") "m.room.join_rules" ""
        = some ⟨"m.room.join_rules", "", [("join_rule", "")]⟩
      ∧ contentGet ⟨"m.room.join_rules", "", [("join_rule", "")]⟩ "join_rule" = some ""
      ∧ ("" : String) ≠ "public"
      ∧ get_public_room_list c7cexStore (some 10) none id
          = Except.ok (computePage c7cexStore (some 10) none id)
      ∧ (computePage c7cexStore (some 10) none id).chunk.map (fun s => s.room_id)
          = ["!a"] :=
  ⟨by decide, by decide, by decide, rfl, by decide⟩

/-! ### Page selection lemmas -/

/-- A successful run on an encoded (or absent) cursor yields the computed
page. -/
theorem page_of_run (st : Store) (limit : Option Nat) (nb : Option RoomListNextBatch)
    (sched : List RoomId → List RoomId) (page : Page)
    (hv : match nb with | some b => validBatch b | none => True)
    (hok : get_public_room_list st limit (nb.map to_token) sched = Except.ok page) :
    page = computePage st limit nb sched := by
  cases nb with
  | none => exact (Except.ok.inj hok).symm
  | some b =>
    rw [Option.map_some'] at hok
    rw [run_with_batch st limit sched b hv] at hok
    exact (Except.ok.inj hok).symm

/-- Response assembly in the forward case. -/
theorem assembleResults_fwd (chunk : List RoomSummary) (tok : Nat) (nl : Option Nat)
    (nb : Option RoomListNextBatch) (h : isForwardOf nb = true) :
    assembleResults chunk tok nl nb =
      { chunk := chunk
        next_batch := match nl with
          | some m => if m ≠ 0 then some (to_token ⟨tok, m, true⟩) else none
          | none => none
        prev_batch := match nb with
          | some b => some (to_token (copy_and_replace b false))
          | none => none } := by
  unfold assembleResults
  rw [if_pos h]
  cases nb <;> rfl

/-- Response assembly in the backward case. -/
theorem assembleResults_bwd (chunk : List RoomSummary) (tok : Nat) (nl : Option Nat)
    (nb : Option RoomListNextBatch) (h : isForwardOf nb = false) :
    assembleResults chunk tok nl nb =
      { chunk := chunk
        prev_batch := match nl with
          | some m => if m ≠ 0 then some (to_token ⟨tok, m, false⟩) else none
          | none => none
        next_batch := match nb with
          | some b => some (to_token (copy_and_replace b true))
          | none => none } := by
  unfold assembleResults
  rw [if_neg (by simp [h])]
  cases nb <;> rfl

/-- Unfolding of the computed page. -/
theorem computePage_eq (st : Store) (limit : Option Nat) (nb : Option RoomListNextBatch)
    (sched : List RoomId → List RoomId) :
    computePage st limit nb sched
      = assembleResults
          (chunkOf st (streamTokenOf st nb)
            (sched (selectedRooms
              (slicedRooms (sortedRoomsAll st (streamTokenOf st nb)) nb) limit)))
          (streamTokenOf st nb)
          (newLimit (slicedRooms (sortedRoomsAll st (streamTokenOf st nb)) nb) limit nb)
          nb := rfl

/-- The offset issued when entries remain past the truncation point. -/
theorem newLimit_some {sliced : List RoomId} {l : Nat} {nb : Option RoomListNextBatch}
    (hl : ¬l = 0) (hmore : ¬sliced.drop l = []) :
    newLimit sliced (some l) nb = some (match nb with
      | none => l
      | some b => if b.direction_is_forward then l + b.current_limit
        else b.current_limit - l) := by
  simp only [newLimit]
  rw [if_neg hl, if_neg hmore]

/-- No offset is issued when nothing remains past the truncation point. -/
theorem newLimit_none_of_nomore {sliced : List RoomId} {l : Nat}
    {nb : Option RoomListNextBatch} (hmore : sliced.drop l = []) :
    newLimit sliced (some l) nb = none := by
  simp only [newLimit]
  by_cases h : l = 0
  · rw [if_pos h]
  · rw [if_neg h, if_pos hmore]

/-- Any issued offset is bounded by the page size plus the cursor offset. -/
theorem newLimit_le {sliced : List RoomId} {limit : Option Nat}
    {nb : Option RoomListNextBatch} {m : Nat}
    (h : newLimit sliced limit nb = some m) : m ≤ limit.getD 0 + offsetOf nb := by
  cases limit with
  | none => exact nomatch h
  | some l =>
    simp only [newLimit] at h
    split_ifs at h
    cases nb with
    | none =>
      have hm : l = m := Option.some.inj h
      show m ≤ l + 0
      omega
    | some b =>
      have h2 : some (if b.direction_is_forward then l + b.current_limit
          else b.current_limit - l) = some m := h
      have hm := Option.some.inj h2
      show m ≤ l + b.current_limit
      by_cases hb : b.direction_is_forward
      · rw [if_pos hb] at hm
        omega
      · rw [if_neg hb] at hm
        omega

/-- A non-empty remainder after dropping means the index is short of the
length. -/
theorem lt_length_of_drop_ne_nil {α : Type} {l : List α} {n : Nat}
    (h : l.drop n ≠ []) : n < l.length := by
  by_contra hle
  exact h (List.drop_eq_nil_iff.mpr (by omega))

/-- Taking a page backward from the boundary `O + S` yields exactly the
reverse of the forward page at offset `O`. -/
theorem take_reverse_take {α : Type} (all : List α) (O S : Nat) (h : O + S ≤ all.length) :
    ((all.take (O + S)).reverse).take S = ((all.drop O).take S).reverse := by
  rw [List.take_add, List.reverse_append]
  have hlen : (((all.drop O).take S).reverse).length = S := by
    rw [List.length_reverse, List.length_take, List.length_drop]
    omega
  rw [List.take_left' hlen]

/-- Next cursor of a forward response. -/
theorem assembleResults_next_fwd (chunk : List RoomSummary) (tok : Nat) (nl : Option Nat)
    (nb : Option RoomListNextBatch) (h : isForwardOf nb = true) :
    (assembleResults chunk tok nl nb).next_batch
      = match nl with
        | some m => if m ≠ 0 then some (to_token ⟨tok, m, true⟩) else none
        | none => none := by
  rw [assembleResults_fwd _ _ _ _ h]

/-- Previous cursor of a forward response: the input cursor reversed. -/
theorem assembleResults_prev_fwd (chunk : List RoomSummary) (tok : Nat) (nl : Option Nat)
    (nb : Option RoomListNextBatch) (h : isForwardOf nb = true) :
    (assembleResults chunk tok nl nb).prev_batch
      = match nb with
        | some b => some (to_token (copy_and_replace b false))
        | none => none := by
  rw [assembleResults_fwd _ _ _ _ h]

/-- Previous cursor of a backward response. -/
theorem assembleResults_prev_bwd (chunk : List RoomSummary) (tok : Nat) (nl : Option Nat)
    (nb : Option RoomListNextBatch) (h : isForwardOf nb = false) :
    (assembleResults chunk tok nl nb).prev_batch
      = match nl with
        | some m => if m ≠ 0 then some (to_token ⟨tok, m, false⟩) else none
        | none => none := by
  rw [assembleResults_bwd _ _ _ _ h]

/-- Next cursor of a backward response: the input cursor reversed. -/
theorem assembleResults_next_bwd (chunk : List RoomSummary) (tok : Nat) (nl : Option Nat)
    (nb : Option RoomListNextBatch) (h : isForwardOf nb = false) :
    (assembleResults chunk tok nl nb).next_batch
      = match nb with
        | some b => some (to_token (copy_and_replace b true))
        | none => none := by
  rw [assembleResults_bwd _ _ _ _ h]

/-- C2: for every input cursor (or none) and positive page size, when
entries remain beyond the truncation point of the direction-sliced
sequence, the cursor issued in the traversal direction carries
`pageSize + offset` forward (offset 0 when no cursor was given) and
`offset - pageSize` backward (truncated `Nat` subtraction is the source's
`max(0, ...)`); when nothing remains, no cursor is issued in the traversal
direction. -/
theorem roomlist_C2 (st : Store) (S : Nat) (nb : Option RoomListNextBatch)
    (sched : List RoomId → List RoomId) (page : Page)
    (hS : 0 < S)
    (hv : match nb with | some b => validBatch b | none => True)
    (hok : get_public_room_list st (some S) (nb.map to_token) sched = Except.ok page) :
    ((slicedRooms (sortedRoomsAll st (streamTokenOf st nb)) nb).drop S ≠ [] →
        (isForwardOf nb = true →
          page.next_batch = some (to_token ⟨streamTokenOf st nb, S + offsetOf nb, true⟩))
      ∧ (isForwardOf nb = false →
          page.prev_batch = some (to_token ⟨streamTokenOf st nb, offsetOf nb - S, false⟩)))
    ∧ ((slicedRooms (sortedRoomsAll st (streamTokenOf st nb)) nb).drop S = [] →
        (isForwardOf nb = true → page.next_batch = none)
      ∧ (isForwardOf nb = false → page.prev_batch = none)) := by
  have hpage := page_of_run st (some S) nb sched page hv hok
  subst hpage
  rw [computePage_eq]
  cases nb with
  | none =>
    constructor
    · intro hmore
      have hnl := @newLimit_some _ S (none : Option RoomListNextBatch) (by omega) hmore
      constructor
      · intro hf
        rw [assembleResults_next_fwd _ _ _ _ hf]
        simp only [hnl]
        rw [if_pos (by omega)]
        simp only [offsetOf, streamTokenOf]
        rw [Nat.add_zero]
      · intro hb
        simp [isForwardOf] at hb
    · intro hdone
      have hnl := @newLimit_none_of_nomore _ _ (none : Option RoomListNextBatch) hdone
      constructor
      · intro hf
        rw [assembleResults_next_fwd _ _ _ _ hf]
        simp only [hnl]
      · intro hb
        simp [isForwardOf] at hb
  | some b =>
    constructor
    · intro hmore
      have hnl := @newLimit_some _ S (some b) (by omega) hmore
      constructor
      · intro hf
        have hbf : b.direction_is_forward = true := hf
        rw [assembleResults_next_fwd _ _ _ _ hf]
        simp only [hnl, hbf, if_true]
        rw [if_pos (by omega)]
        rfl
      · intro hb
        have hbf : b.direction_is_forward = false := hb
        rw [assembleResults_prev_bwd _ _ _ _ hb]
        have hlt := lt_length_of_drop_ne_nil hmore
        have hcur : S < b.current_limit := by
          simp only [slicedRooms, hbf, Bool.false_eq_true, if_false,
            List.length_reverse, List.length_take] at hlt
          omega
        simp only [hnl, hbf, Bool.false_eq_true, if_false]
        rw [if_pos (by omega)]
        rfl
    · intro hdone
      have hnl := @newLimit_none_of_nomore _ _ (some b) hdone
      constructor
      · intro hf
        rw [assembleResults_next_fwd _ _ _ _ hf]
        simp only [hnl]
      · intro hb
        rw [assembleResults_prev_bwd _ _ _ _ hb]
        simp only [hnl]

/-- C6: every cursor issued in a successful response decodes again and
carries the snapshot position of the run: the input cursor's
`stream_ordering` when a cursor was supplied, and the store's current
maximum stream ordering only when none was (that is `streamTokenOf`). -/
theorem roomlist_C6 (st : Store) (limit : Option Nat) (nb : Option RoomListNextBatch)
    (sched : List RoomId → List RoomId) (page : Page)
    (hv : match nb with | some b => validBatch b | none => True)
    (hmax : st.maxStreamOrdering < 18446744073709551616)
    (hlim : limit.getD 0 + offsetOf nb < 18446744073709551616)
    (hok : get_public_room_list st limit (nb.map to_token) sched = Except.ok page) :
    (∀ t, page.next_batch = some t →
      ∃ b2, from_token t = some b2 ∧ b2.stream_ordering = streamTokenOf st nb)
    ∧ (∀ t, page.prev_batch = some t →
      ∃ b2, from_token t = some b2 ∧ b2.stream_ordering = streamTokenOf st nb) := by
  have hpage := page_of_run st limit nb sched page hv hok
  subst hpage
  rw [computePage_eq]
  have htok : streamTokenOf st nb < 18446744073709551616 := by
    cases nb with
    | none => exact hmax
    | some b => exact hv.1
  cases hf : isForwardOf nb with
  | true =>
    constructor
    · intro t ht
      rw [assembleResults_next_fwd _ _ _ _ hf] at ht
      cases hnl : newLimit (slicedRooms (sortedRoomsAll st (streamTokenOf st nb)) nb)
          limit nb with
      | none => simp only [hnl] at ht; exact nomatch ht
      | some m =>
        simp only [hnl] at ht
        by_cases hm : m ≠ 0
        · rw [if_pos hm] at ht
          have hteq := Option.some.inj ht
          have hmlt : m < 18446744073709551616 :=
            lt_of_le_of_lt (newLimit_le hnl) hlim
          refine ⟨⟨streamTokenOf st nb, m, true⟩, ?_, rfl⟩
          rw [← hteq]
          exact from_token_to_token _ ⟨htok, hmlt⟩
        · rw [if_neg hm] at ht; exact nomatch ht
    · intro t ht
      rw [assembleResults_prev_fwd _ _ _ _ hf] at ht
      cases nb with
      | none => exact nomatch ht
      | some b =>
        have hteq := Option.some.inj ht
        refine ⟨copy_and_replace b false, ?_, rfl⟩
        rw [← hteq]
        exact from_token_to_token _ ⟨hv.1, hv.2⟩
  | false =>
    constructor
    · intro t ht
      rw [assembleResults_next_bwd _ _ _ _ hf] at ht
      cases nb with
      | none => exact nomatch hf
      | some b =>
        have hteq := Option.some.inj ht
        refine ⟨copy_and_replace b true, ?_, rfl⟩
        rw [← hteq]
        exact from_token_to_token _ ⟨hv.1, hv.2⟩
    · intro t ht
      rw [assembleResults_prev_bwd _ _ _ _ hf] at ht
      cases hnl : newLimit (slicedRooms (sortedRoomsAll st (streamTokenOf st nb)) nb)
          limit nb with
      | none => simp only [hnl] at ht; exact nomatch ht
      | some m =>
        simp only [hnl] at ht
        by_cases hm : m ≠ 0
        · rw [if_pos hm] at ht
          have hteq := Option.some.inj ht
          have hmlt : m < 18446744073709551616 :=
            lt_of_le_of_lt (newLimit_le hnl) hlim
          refine ⟨⟨streamTokenOf st nb, m, false⟩, ?_, rfl⟩
          rw [← hteq]
          exact from_token_to_token _ ⟨htok, hmlt⟩
        · rw [if_neg hm] at ht; exact nomatch ht

/-- Witness for C6: the second page of the concrete store carries the input
cursor's snapshot position 7 in both issued cursors. -/
theorem roomlist_C6_witness :
    (validBatch ⟨7, 1, true⟩ ∧ wStore.maxStreamOrdering < 18446744073709551616
      ∧ (some 1 : Option Nat).getD 0 + offsetOf (some ⟨7, 1, true⟩)
          < 18446744073709551616)
    ∧ ((∀ t, (computePage wStore (some 1) (some ⟨7, 1, true⟩) id).next_batch = some t →
        ∃ b2, from_token t = some b2
          ∧ b2.stream_ordering = streamTokenOf wStore (some ⟨7, 1, true⟩))
      ∧ (∀ t, (computePage wStore (some 1) (some ⟨7, 1, true⟩) id).prev_batch = some t →
        ∃ b2, from_token t = some b2
          ∧ b2.stream_ordering = streamTokenOf wStore (some ⟨7, 1, true⟩))) :=
  ⟨⟨by decide, by decide, by decide⟩,
    roomlist_C6 wStore (some 1) (some ⟨7, 1, true⟩) id
      (computePage wStore (some 1) (some ⟨7, 1, true⟩) id)
      (by decide) (by decide) (by decide) rfl⟩

/-- C10: a supplied page size of 0 behaves exactly like an absent page size:
the run is equal to the run with no limit, the chunk is the enrichment of
the whole direction-sliced ranked sequence with no truncation, and no
cursor is issued in the traversal direction even when the sequence is
non-empty. -/
theorem roomlist_C10 (st : Store) (nb : Option RoomListNextBatch)
    (sched : List RoomId → List RoomId) (page : Page)
    (hv : match nb with | some b => validBatch b | none => True)
    (hok : get_public_room_list st (some 0) (nb.map to_token) sched = Except.ok page) :
    get_public_room_list st (some 0) (nb.map to_token) sched
        = get_public_room_list st none (nb.map to_token) sched
    ∧ page.chunk = chunkOf st (streamTokenOf st nb)
        (sched (slicedRooms (sortedRoomsAll st (streamTokenOf st nb)) nb))
    ∧ (isForwardOf nb = true → page.next_batch = none)
    ∧ (isForwardOf nb = false → page.prev_batch = none) := by
  have hpage := page_of_run st (some 0) nb sched page hv hok
  subst hpage
  refine ⟨?_, ?_, ?_, ?_⟩
  · cases nb with
    | none => rfl
    | some b =>
      rw [Option.map_some', run_with_batch st (some 0) sched b hv,
        run_with_batch st none sched b hv]
      rfl
  · rw [computePage_chunk]
    rfl
  · intro hf
    rw [computePage_eq, assembleResults_next_fwd _ _ _ _ hf]
    rfl
  · intro hb
    rw [computePage_eq, assembleResults_prev_bwd _ _ _ _ hb]
    rfl

/-- Witness for C10 on the concrete store with no cursor: page size 0
returns all three rankable rooms and no next cursor. -/
theorem roomlist_C10_witness :
    get_public_room_list wStore (some 0) ((none : Option RoomListNextBatch).map to_token) id
        = get_public_room_list wStore none ((none : Option RoomListNextBatch).map to_token) id
    ∧ (computePage wStore (some 0) none id).chunk
        = chunkOf wStore (streamTokenOf wStore none)
          (id (slicedRooms (sortedRoomsAll wStore (streamTokenOf wStore none)) none))
    ∧ (isForwardOf (none : Option RoomListNextBatch) = true →
        (computePage wStore (some 0) none id).next_batch = none)
    ∧ (isForwardOf (none : Option RoomListNextBatch) = false →
        (computePage wStore (some 0) none id).prev_batch = none) :=
  roomlist_C10 wStore none id (computePage wStore (some 0) none id) trivial rfl

/-- Witness for C2: paging forward with size 1 from offset 1 over the three
ranked rooms of the concrete store. -/
theorem roomlist_C2_witness :
    (0 < 1 ∧ validBatch ⟨7, 1, true⟩)
    ∧ (((slicedRooms (sortedRoomsAll wStore (streamTokenOf wStore (some ⟨7, 1, true⟩)))
            (some ⟨7, 1, true⟩)).drop 1 ≠ [] →
          (isForwardOf (some ⟨7, 1, true⟩) = true →
            (computePage wStore (some 1) (some ⟨7, 1, true⟩) id).next_batch
              = some (to_token ⟨streamTokenOf wStore (some ⟨7, 1, true⟩),
                  1 + offsetOf (some ⟨7, 1, true⟩), true⟩))
        ∧ (isForwardOf (some ⟨7, 1, true⟩) = false →
            (computePage wStore (some 1) (some ⟨7, 1, true⟩) id).prev_batch
              = some (to_token ⟨streamTokenOf wStore (some ⟨7, 1, true⟩),
                  offsetOf (some ⟨7, 1, true⟩) - 1, false⟩)))
      ∧ ((slicedRooms (sortedRoomsAll wStore (streamTokenOf wStore (some ⟨7, 1, true⟩)))
            (some ⟨7, 1, true⟩)).drop 1 = [] →
          (isForwardOf (some ⟨7, 1, true⟩) = true →
            (computePage wStore (some 1) (some ⟨7, 1, true⟩) id).next_batch = none)
        ∧ (isForwardOf (some ⟨7, 1, true⟩) = false →
            (computePage wStore (some 1) (some ⟨7, 1, true⟩) id).prev_batch = none))) :=
  ⟨⟨by decide, by decide⟩,
    roomlist_C2 wStore 1 (some ⟨7, 1, true⟩) id
      (computePage wStore (some 1) (some ⟨7, 1, true⟩) id)
      (by decide) (by decide) rfl⟩

/-- C1: forward/backward symmetry.  Paging forward from offset `O` with
size `S` at snapshot `pos`, when the resulting page issues a `next_batch`
token, that token decodes to the cursor at offset `O + S`; paging backward
from that boundary (the same cursor with the direction flag turned to
backward) reproduces exactly the page that preceded it: the same chunk
(same room identifiers in the same order, since summaries embed their
ids), and its cursors carry the same snapshot position `pos` — whatever
completion orders the two enrichment fan-outs use. -/
theorem roomlist_C1 (st : Store) (S O pos : Nat)
    (sched1 sched2 : List RoomId → List RoomId) (page1 page2 : Page) (t : String)
    (hpos : pos < 18446744073709551616) (hOS : O + S < 18446744073709551616)
    (hs1 : ∀ l, List.Perm (sched1 l) l) (hs2 : ∀ l, List.Perm (sched2 l) l)
    (h1 : get_public_room_list st (some S) (some (to_token ⟨pos, O, true⟩)) sched1
      = Except.ok page1)
    (hnext : page1.next_batch = some t)
    (h2 : get_public_room_list st (some S) (some (to_token ⟨pos, O + S, false⟩)) sched2
      = Except.ok page2) :
    from_token t = some ⟨pos, O + S, true⟩
    ∧ page2.chunk = page1.chunk
    ∧ page2.next_batch = some (to_token ⟨pos, O + S, true⟩) := by
  have hO : O < 18446744073709551616 := by omega
  have hv1 : validBatch ⟨pos, O, true⟩ := ⟨hpos, hO⟩
  have hv2 : validBatch ⟨pos, O + S, false⟩ := ⟨hpos, hOS⟩
  rw [run_with_batch st (some S) sched1 _ hv1] at h1
  rw [run_with_batch st (some S) sched2 _ hv2] at h2
  have hp1 : page1 = computePage st (some S) (some ⟨pos, O, true⟩) sched1 :=
    (Except.ok.inj h1).symm
  have hp2 : page2 = computePage st (some S) (some ⟨pos, O + S, false⟩) sched2 :=
    (Except.ok.inj h2).symm
  subst hp1
  subst hp2
  rw [computePage_eq] at hnext
  rw [assembleResults_next_fwd _ _ _ (some ⟨pos, O, true⟩) rfl] at hnext
  simp only [streamTokenOf, slicedRooms, eq_self_iff_true, if_true] at hnext
  by_cases hS0 : S = 0
  · have hnl : ∀ (sl : List RoomId) (nbv : Option RoomListNextBatch),
        newLimit sl (some S) nbv = none := by
      intro sl nbv
      simp [newLimit, hS0]
    simp only [hnl] at hnext
    exact nomatch hnext
  by_cases hdone : ((sortedRoomsAll st pos).drop O).drop S = []
  · have hnl := @newLimit_none_of_nomore _ _
      (some (⟨pos, O, true⟩ : RoomListNextBatch)) hdone
    simp only [hnl] at hnext
    exact nomatch hnext
  have hnl2 : newLimit ((sortedRoomsAll st pos).drop O) (some S)
      (some (⟨pos, O, true⟩ : RoomListNextBatch)) = some (S + O) := by
    rw [newLimit_some hS0 hdone]
    rfl
  simp only [hnl2] at hnext
  rw [if_pos (by omega)] at hnext
  rw [Nat.add_comm S O] at hnext
  have ht := (Option.some.inj hnext).symm
  subst ht
  have hlen : O + S < (sortedRoomsAll st pos).length := by
    have hlt := lt_length_of_drop_ne_nil hdone
    rw [List.length_drop] at hlt
    omega
  refine ⟨from_token_to_token _ ⟨hpos, hOS⟩, ?_, ?_⟩
  · rw [computePage_chunk, computePage_chunk]
    simp only [streamTokenOf, slicedRooms, selectedRooms, eq_self_iff_true, if_true,
      Bool.false_eq_true, if_false]
    rw [if_neg hS0, if_neg hS0]
    have hslice := take_reverse_take (sortedRoomsAll st pos) O S (by omega)
    rw [hslice]
    have hnod : (((sortedRoomsAll st pos).drop O).take S).Nodup :=
      ((List.take_sublist _ _).trans (List.drop_sublist _ _)).nodup
        (sortedRoomsAll_nodup st pos)
    apply chunkOf_perm_eq
    · exact (hs2 _).trans ((List.reverse_perm _).trans (hs1 _).symm)
    · exact ((hs2 _).nodup_iff).mpr ((List.reverse_perm _).nodup_iff.mpr hnod)
  · rw [computePage_eq, assembleResults_next_bwd _ _ _ (some ⟨pos, O + S, false⟩) rfl]
    rfl

/-- Witness for C1: forward page of size 1 from offset 1 over the concrete
store, then backward from the issued boundary 2, reproduces the page (room
`!b`). -/
theorem roomlist_C1_witness :
    (7 < 18446744073709551616 ∧ 1 + 1 < 18446744073709551616)
    ∧ (from_token (to_token ⟨7, 1 + 1, true⟩) = some ⟨7, 1 + 1, true⟩
      ∧ (computePage wStore (some 1) (some ⟨7, 1 + 1, false⟩) id).chunk
          = (computePage wStore (some 1) (some ⟨7, 1, true⟩) id).chunk
      ∧ (computePage wStore (some 1) (some ⟨7, 1 + 1, false⟩) id).next_batch
          = some (to_token ⟨7, 1 + 1, true⟩)) :=
  ⟨⟨by decide, by decide⟩,
    roomlist_C1 wStore 1 1 7 id id
      (computePage wStore (some 1) (some ⟨7, 1, true⟩) id)
      (computePage wStore (some 1) (some ⟨7, 1 + 1, false⟩) id)
      (to_token ⟨7, 1 + 1, true⟩)
      (by decide) (by decide) (fun l => List.Perm.refl l) (fun l => List.Perm.refl l)
      rfl (by decide) rfl⟩
